import Mathlib

set_option maxRecDepth 8000

/-!
Verification model of the face-detection / emotion-classification pipeline in
`server/image_utils.py` (class `EmotionPredictor`).

The opaque external collaborators (the Haar-cascade candidate generator and the
Keras classifier) are modelled as parameters: the cascade's raw output is a
`List Rect` argument, and the per-candidate preprocess-then-classify step is a
function `Rect → StepOutcome` whose outcomes mirror the source's three cases
(preprocessing returned `None`; a successful prediction; an exception raised by
`model.predict`).  Everything downstream of those parameters is translated
directly from the Python source:

* `detect_faces_multi_scale` — the size filtering, duplicate removal and
  3-face truncation applied to the cascade output (lines 131-150);
* `filter_false_positives` — aspect-ratio / min-size / variance / bounds
  checks plus NMS, with the outer `try/except` that returns the *unfiltered*
  input on an internal error (lines 156-201); the one in-model source of such
  an error is the `w / h` division when a candidate has height 0;
* `non_max_suppression` — largest-area-first greedy suppression
  (lines 203-250); `np.argsort(areas)[::-1]` is modelled by a sort with the
  area-descending relation `areaGe`; in NumPy, `intersection / union` with a
  zero union yields NaN, and `NaN <= threshold` is `False`, which is modelled
  by the explicit zero-union case of `keepCond`;
* `predict_emotion` — the orchestration (lines 278-361), including the
  no-face early return with `success = False` and the top-level exception
  handler.

Pixel buffers are grayscale images `Nat → Nat → Nat`; `np.var` over a region
is the exact population variance in `ℚ` (the region slice is clipped to the
image as NumPy slicing clips).  Coordinates are naturals, matching the
cascade's output domain (the source's `x < 0` checks are vacuous there).
-/

namespace EmotionModel

/-- An axis-aligned candidate rectangle `(x, y, w, h)` as produced by
`cv2.CascadeClassifier.detectMultiScale`. -/
structure Rect where
  x : Nat
  y : Nat
  w : Nat
  h : Nat
deriving DecidableEq, Repr

/-- `areas = faces_array[:, 2] * faces_array[:, 3]` — the area `w * h`. -/
def Rect.area (r : Rect) : Nat := r.w * r.h

/-- Intersection area of two rectangles: the source's
`np.maximum(0, xx2 - xx1) * np.maximum(0, yy2 - yy1)`; truncated `Nat`
subtraction gives exactly the clamp at 0. -/
def interArea (a b : Rect) : Nat :=
  (min (a.x + a.w) (b.x + b.w) - max a.x b.x) *
    (min (a.y + a.h) (b.y + b.h) - max a.y b.y)

/-- Union area as the source computes it:
`areas[current] + areas[other] - intersection`. -/
def unionArea (a b : Rect) : Nat :=
  a.area + b.area - interArea a b

/-- The overlap ratio (intersection over union) the source computes as
`intersection / union`.  Exact rational arithmetic models the NumPy float
division on the small integer inputs involved. -/
def overlapRatio (a b : Rect) : ℚ :=
  (interArea a b : ℚ) / (unionArea a b : ℚ)

/-- The survival test NMS applies to a remaining candidate `other` against the
kept candidate `cur`: `overlap_ratio <= overlap_threshold`.  When the union is
0, NumPy's `0 / 0` is NaN and `NaN <= t` is `False`, so the candidate is
suppressed; that case is made explicit here.  For a nonzero union the test is
carried out in exact integer arithmetic by cross-multiplying with the
threshold's numerator and denominator; `keepCond_eq_ratio` proves this equal
to the source's `intersection / union <= threshold`. -/
def keepCond (thr : ℚ) (cur other : Rect) : Bool :=
  if unionArea cur other = 0 then false
  else decide ((interArea cur other : ℤ) * thr.den ≤ thr.num * (unionArea cur other : ℤ))

/-- Area-descending order used by `np.argsort(areas)[::-1]`. -/
def areaGe (a b : Rect) : Prop := b.area ≤ a.area

instance : DecidableRel areaGe := fun a b => Nat.decLe b.area a.area

instance : IsTotal Rect areaGe :=
  ⟨fun a b => (Nat.le_total b.area a.area).imp id id⟩

instance : IsTrans Rect areaGe :=
  ⟨fun _ _ _ hab hbc => Nat.le_trans hbc hab⟩

/-- The greedy suppression loop of `non_max_suppression`: keep the head of the
(area-sorted) worklist, drop every later candidate whose overlap ratio with it
exceeds the threshold, recurse on the survivors.  The `fuel` parameter (always
called with the worklist length, which strictly decreases) makes the recursion
structural. -/
def nmsLoop (thr : ℚ) : Nat → List Rect → List Rect
  | 0, _ => []
  | _, [] => []
  | fuel + 1, cur :: rest =>
      cur :: nmsLoop thr fuel (rest.filter (fun r => keepCond thr cur r))

/-- `EmotionPredictor.non_max_suppression(faces, overlap_threshold)`:
sort by area descending, then greedily suppress.  The source's default
threshold is `0.3 = 3/10`. -/
def non_max_suppression (faces : List Rect) (thr : ℚ) : List Rect :=
  nmsLoop thr (List.insertionSort areaGe faces).length (List.insertionSort areaGe faces)

/-- The per-candidate size window of `detect_faces_multi_scale`:
`30 <= w <= 300 and 30 <= h <= 300`. -/
def sizeWindowOk (r : Rect) : Bool :=
  decide (30 ≤ r.w) && decide (r.w ≤ 300) && decide (30 ≤ r.h) && decide (r.h ≤ 300)

/-- The quick duplicate test of `detect_faces_multi_scale`: a candidate is a
duplicate when some already-kept face satisfies
`abs(x - fx) < w // 2 and abs(y - fy) < h // 2`. -/
def isDuplicate (r : Rect) (kept : List Rect) : Bool :=
  kept.any fun f =>
    decide (((r.x : ℤ) - f.x).natAbs < r.w / 2) &&
      decide (((r.y : ℤ) - f.y).natAbs < r.h / 2)

/-- One iteration of the `for (x, y, w, h) in faces` accumulation loop. -/
def dedupStep (acc : List Rect) (r : Rect) : List Rect :=
  if sizeWindowOk r && !(isDuplicate r acc) then acc ++ [r] else acc

/-- The full `filtered_faces` list of `detect_faces_multi_scale`, before the
3-face truncation. -/
def detectFilteredFaces (raw : List Rect) : List Rect :=
  raw.foldl dedupStep []

/-- `EmotionPredictor.detect_faces_multi_scale`, parameterized by the opaque
cascade output `raw`: size filtering, duplicate removal, and
`filtered_faces[:3]`.  (On an empty `raw` the source returns `[]`, which
coincides with `take 3` of the empty accumulated list.) -/
def detect_faces_multi_scale (raw : List Rect) : List Rect :=
  (detectFilteredFaces raw).take 3

/-- A grayscale frame: dimensions plus a pixel function (row, column). -/
structure Image where
  height : Nat
  width : Nat
  px : Nat → Nat → Nat

/-- The pixel values of `image[y:y+h, x:x+w]`, row-major; NumPy slicing clips
the slice to the image bounds, which truncated subtraction reproduces. -/
def regionPixels (img : Image) (r : Rect) : List Nat :=
  (List.range (min (r.y + r.h) img.height - r.y)).flatMap fun i =>
    (List.range (min (r.x + r.w) img.width - r.x)).map fun j =>
      img.px (r.y + i) (r.x + j)

/-- Sum of the pixel values. -/
def pixelSum (xs : List Nat) : Nat := xs.sum

/-- Sum of the squared pixel values. -/
def pixelSqSum (xs : List Nat) : Nat := (xs.map fun v => v * v).sum

/-- Population variance, the quantity `np.var` computes:
`E[x^2] - E[x]^2`, exact in `ℚ`. -/
def variance (xs : List Nat) : ℚ :=
  if xs.length = 0 then 0
  else (pixelSqSum xs : ℚ) / xs.length - ((pixelSum xs : ℚ) / xs.length) ^ 2

/-- Aspect-ratio check of `filter_false_positives`:
`0.6 <= w / h <= 1.4`, cross-multiplied into exact integer form
(`0.6 = 3/5`, `1.4 = 7/5`); `aspectOk_eq_ratio` proves the equivalence with
the rational form for `h ≠ 0`.  (The check is only reached on candidates with
`h ≠ 0`: a zero height makes `w / h` raise in the source, which `filterLoop`
models.) -/
def aspectOk (r : Rect) : Bool :=
  decide (3 * r.h ≤ 5 * r.w) && decide (5 * r.w ≤ 7 * r.h)

/-- Size check of `filter_false_positives` against
`Config.FACE_DETECTION_MIN_SIZE[0] = 30`: reject `w < 30 or h < 30`. -/
def minSizeOk (r : Rect) : Bool :=
  !(decide (r.w < 30) || decide (r.h < 30))

/-- Variance check: when the clipped ROI is nonempty (`face_roi.size > 0`),
reject a variance below 100; an empty ROI skips the check.  The comparison
`variance < 100` is carried out in integer arithmetic on
`n^2 * variance = n * Σ x^2 - (Σ x)^2`; `varianceOk_eq_ratio` proves the
equivalence with the rational comparison. -/
def varianceOk (img : Image) (r : Rect) : Bool :=
  if (regionPixels img r).length = 0 then true
  else
    decide (100 * ((regionPixels img r).length * (regionPixels img r).length : ℤ) ≤
      ((regionPixels img r).length * pixelSqSum (regionPixels img r) : ℤ) -
        (pixelSum (regionPixels img r) : ℤ) * (pixelSum (regionPixels img r) : ℤ))

/-- Bounds check: reject `x + w > image.shape[1] or y + h > image.shape[0]`
(the `x < 0` / `y < 0` disjuncts are vacuous over naturals). -/
def boundsOk (img : Image) (r : Rect) : Bool :=
  !(decide (img.width < r.x + r.w) || decide (img.height < r.y + r.h))

/-- A candidate survives the four per-candidate checks of
`filter_false_positives` (the sequence of `continue`s). -/
def candidatePasses (img : Image) (r : Rect) : Bool :=
  aspectOk r && minSizeOk r && varianceOk img r && boundsOk img r

/-- The per-candidate loop of `filter_false_positives`, run inside the outer
`try`: a candidate with `h = 0` makes the `w / h` division raise
`ZeroDivisionError`, aborting the loop. -/
def filterLoop (img : Image) : List Rect → Except Unit (List Rect)
  | [] => Except.ok []
  | r :: rest =>
    if r.h = 0 then Except.error ()
    else
      match filterLoop img rest with
      | Except.ok tail =>
          Except.ok (if candidatePasses img r then r :: tail else tail)
      | Except.error e => Except.error e

/-- `EmotionPredictor.filter_false_positives(faces, image)`: run the check
loop, apply NMS (threshold `0.3`) when more than one candidate survives, and
on any internal exception return the *original* input list unchanged
(lines 199-201 of the source). -/
def filter_false_positives (faces : List Rect) (img : Image) : List Rect :=
  match filterLoop img faces with
  | Except.ok kept =>
      if 1 < kept.length then non_max_suppression kept (mkRat 3 10) else kept
  | Except.error _ => faces

/-- Outcome of the per-candidate preprocess-then-classify step inside
`predict_emotion`'s loop: `skip` models `preprocess_face_for_model` returning
`None`; `ok` models a successful `model.predict` (predicted class and
confidence); `raise` models an exception escaping the per-candidate body
(e.g. the classifier being unavailable), which the top-level handler catches. -/
inductive StepOutcome where
  | skip : StepOutcome
  | ok : Nat → ℚ → StepOutcome
  | raise : String → StepOutcome
deriving DecidableEq, Repr

/-- Does the outcome model a successful prediction? -/
def isOk : StepOutcome → Bool
  | StepOutcome.ok _ _ => true
  | _ => false

/-- Does the outcome model a raised exception? -/
def isRaise : StepOutcome → Bool
  | StepOutcome.raise _ => true
  | _ => false

/-- One `emotion_result` dict appended to `results`. -/
structure FacePrediction where
  face_id : Nat
  box : Rect
  emotion : Nat
  confidence : ℚ
deriving DecidableEq, Repr

/-- The `message` field of the response dictionaries built by
`predict_emotion`. -/
inductive Message where
  | noFace : Message
  | successMsg : Nat → Message
  | errorMsg : String → Message
deriving DecidableEq, Repr

/-- The response dictionary of `predict_emotion` (timing fields omitted:
wall-clock time is outside the model). -/
structure EmotionResponse where
  success : Bool
  message : Message
  faces_detected : Nat
  emotions : List FacePrediction
deriving DecidableEq, Repr

/-- The `for i, (x, y, w, h) in enumerate(faces)` loop of `predict_emotion`:
`i` counts every surviving candidate (skipped ones included), `face_id` is
`i + 1`, and a raised exception aborts the whole loop. -/
def predictLoop (step : Rect → StepOutcome) : List Rect → Nat → Except String (List FacePrediction)
  | [], _ => Except.ok []
  | r :: rest, i =>
    match step r with
    | StepOutcome.skip => predictLoop step rest (i + 1)
    | StepOutcome.ok e c =>
        match predictLoop step rest (i + 1) with
        | Except.ok tail =>
            Except.ok ({ face_id := i + 1, box := r, emotion := e, confidence := c } :: tail)
        | Except.error m => Except.error m
    | StepOutcome.raise m => Except.error m

/-- `EmotionPredictor.predict_emotion(image)`, parameterized by the cascade's
raw candidates and the per-candidate step: detect and filter candidates; with
no survivor return the `success = False` / `'No face detected'` response;
otherwise run the loop, and convert any exception into the
`success = False` error response of the top-level handler. -/
def predict_emotion (raw : List Rect) (step : Rect → StepOutcome) : EmotionResponse :=
  let faces := detect_faces_multi_scale raw
  if faces.length = 0 then
    { success := false, message := Message.noFace, faces_detected := 0, emotions := [] }
  else
    match predictLoop step faces 0 with
    | Except.ok results =>
        { success := true, message := Message.successMsg faces.length,
          faces_detected := faces.length, emotions := results }
    | Except.error e =>
        { success := false, message := Message.errorMsg e,
          faces_detected := 0, emotions := [] }

/-- A 100×100 frame with every pixel equal to 128: a wall-like uniform frame
whose every region has variance 0. -/
def uniformTestImage : Image := ⟨100, 100, fun _ _ => 128⟩

/-- A 30×30 frame whose pixel value grows with the column (value `8 * j`):
any full-width region has variance well above 100. -/
def texturedTestImage : Image := ⟨30, 30, fun _ j => 8 * j⟩

/-! ## Basic lemmas about the geometry and the numeric checks -/

theorem interArea_comm (a b : Rect) : interArea a b = interArea b a := by
  unfold interArea
  rw [Nat.min_comm (a.x + a.w), Nat.max_comm a.x, Nat.min_comm (a.y + a.h), Nat.max_comm a.y]

theorem unionArea_comm (a b : Rect) : unionArea a b = unionArea b a := by
  unfold unionArea
  rw [interArea_comm, Nat.add_comm]

theorem overlapRatio_comm (a b : Rect) : overlapRatio a b = overlapRatio b a := by
  unfold overlapRatio
  rw [interArea_comm, unionArea_comm]

theorem keepCond_comm (thr : ℚ) (a b : Rect) : keepCond thr a b = keepCond thr b a := by
  unfold keepCond
  rw [interArea_comm, unionArea_comm]

/-- The integer cross-multiplied test of `keepCond` agrees with the source's
rational comparison `intersection / union <= threshold`. -/
theorem keepCond_eq_ratio (thr : ℚ) (a b : Rect) :
    keepCond thr a b = true ↔ unionArea a b ≠ 0 ∧ overlapRatio a b ≤ thr := by
  unfold keepCond overlapRatio
  by_cases h : unionArea a b = 0
  · simp [h]
  · have hu : (0 : ℚ) < (unionArea a b : ℚ) := by
      exact_mod_cast Nat.pos_of_ne_zero h
    have hd : (0 : ℚ) < (thr.den : ℚ) := by exact_mod_cast thr.pos
    simp only [h, if_false, decide_eq_true_eq, ne_eq, not_false_iff, true_and]
    rw [div_le_iff₀ hu, ← Rat.num_div_den thr, div_mul_eq_mul_div, le_div_iff₀ hd,
      Rat.num_div_den thr]
    constructor
    · intro hle
      calc ((interArea a b : ℚ)) * thr.den = (((interArea a b : ℤ) * thr.den : ℤ) : ℚ) := by
            push_cast; ring
        _ ≤ ((thr.num * (unionArea a b : ℤ) : ℤ) : ℚ) := by exact_mod_cast hle
        _ = (thr.num : ℚ) * (unionArea a b : ℚ) := by push_cast; ring
    · intro hle
      have : (((interArea a b : ℤ) * thr.den : ℤ) : ℚ) ≤
          ((thr.num * (unionArea a b : ℤ) : ℤ) : ℚ) := by
        calc (((interArea a b : ℤ) * thr.den : ℤ) : ℚ)
            = (interArea a b : ℚ) * thr.den := by push_cast; ring
          _ ≤ (thr.num : ℚ) * (unionArea a b : ℚ) := hle
          _ = ((thr.num * (unionArea a b : ℤ) : ℤ) : ℚ) := by push_cast; ring
      exact_mod_cast this

/-- The integer cross-multiplied aspect test agrees with the source's
`0.6 <= w / h <= 1.4` whenever `h ≠ 0`. -/
theorem aspectOk_eq_ratio (r : Rect) (h : r.h ≠ 0) :
    aspectOk r = true ↔
      ((3 / 5 : ℚ) ≤ (r.w : ℚ) / (r.h : ℚ) ∧ (r.w : ℚ) / (r.h : ℚ) ≤ 7 / 5) := by
  have hh : (0 : ℚ) < (r.h : ℚ) := by exact_mod_cast Nat.pos_of_ne_zero h
  unfold aspectOk
  rw [Bool.and_eq_true, decide_eq_true_eq, decide_eq_true_eq,
    div_le_div_iff₀ (by norm_num : (0 : ℚ) < 5) hh, div_le_div_iff₀ hh (by norm_num : (0 : ℚ) < 5)]
  constructor
  · intro ⟨h1, h2⟩
    constructor
    · calc (3 : ℚ) * r.h = ((3 * r.h : ℕ) : ℚ) := by push_cast; ring
        _ ≤ ((5 * r.w : ℕ) : ℚ) := by exact_mod_cast h1
        _ = (r.w : ℚ) * 5 := by push_cast; ring
    · calc (r.w : ℚ) * 5 = ((5 * r.w : ℕ) : ℚ) := by push_cast; ring
        _ ≤ ((7 * r.h : ℕ) : ℚ) := by exact_mod_cast h2
        _ = 7 * (r.h : ℚ) := by push_cast; ring
  · intro ⟨h1, h2⟩
    constructor
    · have : ((3 * r.h : ℕ) : ℚ) ≤ ((5 * r.w : ℕ) : ℚ) := by
        push_cast
        calc (3 : ℚ) * r.h ≤ (r.w : ℚ) * 5 := h1
          _ = 5 * (r.w : ℚ) := by ring
      exact_mod_cast this
    · have : ((5 * r.w : ℕ) : ℚ) ≤ ((7 * r.h : ℕ) : ℚ) := by
        push_cast
        calc (5 : ℚ) * r.w = (r.w : ℚ) * 5 := by ring
          _ ≤ 7 * (r.h : ℚ) := h2
      exact_mod_cast this

/-- On a nonempty pixel list, the rational population variance equals the
integer numerator `n * Σ x^2 - (Σ x)^2` over `n^2`. -/
theorem variance_eq_int_form (xs : List Nat) (h : xs.length ≠ 0) :
    variance xs =
      (((xs.length * pixelSqSum xs : ℤ) - (pixelSum xs : ℤ) * (pixelSum xs : ℤ) : ℤ) : ℚ) /
        ((xs.length * xs.length : ℕ) : ℚ) := by
  have hn : (0 : ℚ) < (xs.length : ℚ) := by exact_mod_cast Nat.pos_of_ne_zero h
  unfold variance
  rw [if_neg h]
  push_cast
  field_simp
  ring

/-- The integer comparison of `varianceOk` agrees with `not (variance < 100)`
on a nonempty region. -/
theorem varianceOk_eq_ratio (img : Image) (r : Rect)
    (h : (regionPixels img r).length ≠ 0) :
    varianceOk img r = true ↔ ¬ variance (regionPixels img r) < 100 := by
  have hn2 : (0 : ℚ) < (((regionPixels img r).length * (regionPixels img r).length : ℕ) : ℚ) := by
    have := Nat.pos_of_ne_zero h
    exact_mod_cast Nat.mul_pos this this
  unfold varianceOk
  rw [if_neg h, decide_eq_true_eq, not_lt, variance_eq_int_form _ h, le_div_iff₀ hn2]
  constructor
  · intro hle
    have : ((100 * ((regionPixels img r).length * (regionPixels img r).length : ℤ) : ℤ) : ℚ) ≤
        ((((regionPixels img r).length * pixelSqSum (regionPixels img r) : ℤ) -
          (pixelSum (regionPixels img r) : ℤ) * (pixelSum (regionPixels img r) : ℤ) : ℤ) : ℚ) := by
      exact_mod_cast hle
    push_cast at this ⊢
    linarith
  · intro hle
    have : ((100 * ((regionPixels img r).length * (regionPixels img r).length : ℤ) : ℤ) : ℚ) ≤
        ((((regionPixels img r).length * pixelSqSum (regionPixels img r) : ℤ) -
          (pixelSum (regionPixels img r) : ℤ) * (pixelSum (regionPixels img r) : ℤ) : ℤ) : ℚ) := by
      push_cast at hle ⊢
      linarith
    exact_mod_cast this

/-- A list of equal values sums to length times the value. -/
theorem pixelSum_const (xs : List Nat) (c : Nat) (h : ∀ x ∈ xs, x = c) :
    pixelSum xs = xs.length * c := by
  induction xs with
  | nil => simp [pixelSum]
  | cons a t ih =>
      have ha : a = c := h a (List.mem_cons_self a t)
      have ht := ih fun x hx => h x (List.mem_cons_of_mem a hx)
      simp only [pixelSum, List.sum_cons, List.length_cons] at *
      rw [ha, ht]
      ring

/-- A list of equal values has squared sum length times the squared value. -/
theorem pixelSqSum_const (xs : List Nat) (c : Nat) (h : ∀ x ∈ xs, x = c) :
    pixelSqSum xs = xs.length * (c * c) := by
  induction xs with
  | nil => simp [pixelSqSum]
  | cons a t ih =>
      have ha : a = c := h a (List.mem_cons_self a t)
      have ht := ih fun x hx => h x (List.mem_cons_of_mem a hx)
      simp only [pixelSqSum, List.map_cons, List.sum_cons, List.length_cons] at *
      rw [ha, ht]
      ring

/-- A list of equal pixel values has population variance 0. -/
theorem variance_const (xs : List Nat) (c : Nat) (h : ∀ x ∈ xs, x = c) :
    variance xs = 0 := by
  by_cases h0 : xs.length = 0
  · unfold variance
    rw [if_pos h0]
  · rw [variance_eq_int_form xs h0, pixelSum_const xs c h, pixelSqSum_const xs c h]
    push_cast
    have : ((xs.length : ℚ) * ((xs.length : ℚ) * ((c : ℚ) * c)) -
        (xs.length : ℚ) * c * ((xs.length : ℚ) * c)) = 0 := by ring
    rw [this, zero_div]

/-- The region of a constant-valued frame consists of that constant. -/
theorem regionPixels_const (img : Image) (r : Rect) (c : Nat)
    (hpx : ∀ i j, img.px i j = c) : ∀ x ∈ regionPixels img r, x = c := by
  intro x hx
  unfold regionPixels at hx
  obtain ⟨i, _, hx2⟩ := List.mem_flatMap.mp hx
  obtain ⟨j, _, hx3⟩ := List.mem_map.mp hx2
  rw [← hx3, hpx]

/-- The clipped region holds `rows * cols` pixels. -/
theorem regionPixels_length (img : Image) (r : Rect) :
    (regionPixels img r).length =
      (min (r.y + r.h) img.height - r.y) * (min (r.x + r.w) img.width - r.x) := by
  unfold regionPixels
  rw [List.flatMap_def, List.length_flatten, List.map_map]
  simp [Function.comp_def, List.length_map, List.length_range, List.map_const,
    List.sum_replicate, smul_eq_mul]

/-! ## Non-maximum suppression: structural lemmas -/

theorem nmsLoop_sublist (thr : ℚ) : ∀ (fuel : Nat) (l : List Rect),
    List.Sublist (nmsLoop thr fuel l) l
  | 0, _ => by simp [nmsLoop]
  | _ + 1, [] => by simp [nmsLoop]
  | fuel + 1, cur :: rest => by
      simp only [nmsLoop]
      exact List.Sublist.cons₂ cur
        ((nmsLoop_sublist thr fuel _).trans (List.filter_sublist _))

theorem nmsLoop_pairwise (thr : ℚ) : ∀ (fuel : Nat) (l : List Rect),
    (nmsLoop thr fuel l).Pairwise (fun a b => keepCond thr a b = true)
  | 0, _ => by simp [nmsLoop]
  | _ + 1, [] => by simp [nmsLoop]
  | fuel + 1, cur :: rest => by
      simp only [nmsLoop]
      refine List.Pairwise.cons ?_ (nmsLoop_pairwise thr fuel _)
      intro b hb
      have hb' : b ∈ rest.filter (fun r => keepCond thr cur r) :=
        (nmsLoop_sublist thr fuel _).subset hb
      exact (List.mem_filter.mp hb').2

theorem nmsLoop_eq_self (thr : ℚ) : ∀ (fuel : Nat) (l : List Rect),
    l.length ≤ fuel → l.Pairwise (fun a b => keepCond thr a b = true) →
    nmsLoop thr fuel l = l
  | fuel, [], _, _ => by cases fuel <;> simp [nmsLoop]
  | 0, a :: l, hlen, _ => by simp at hlen
  | fuel + 1, cur :: rest, hlen, hpw => by
      simp only [nmsLoop]
      have hf : rest.filter (fun r => keepCond thr cur r) = rest :=
        List.filter_eq_self.mpr fun b hb => (List.pairwise_cons.mp hpw).1 b hb
      rw [hf, nmsLoop_eq_self thr fuel rest (by simpa using Nat.le_of_succ_le_succ (by simpa using hlen))
        (List.pairwise_cons.mp hpw).2]

/-- Everything NMS outputs was among its input candidates. -/
theorem mem_of_mem_nms {faces : List Rect} {thr : ℚ} {r : Rect}
    (h : r ∈ non_max_suppression faces thr) : r ∈ faces := by
  unfold non_max_suppression at h
  have := (nmsLoop_sublist thr _ _).subset h
  exact (List.mem_insertionSort areaGe).mp this

/-- Every pair of NMS-output candidates (in output order) passed the survival
test against each other. -/
theorem nms_pairwise (faces : List Rect) (thr : ℚ) :
    (non_max_suppression faces thr).Pairwise (fun a b => keepCond thr a b = true) :=
  nmsLoop_pairwise thr _ _

/-- The NMS output is sorted by descending area. -/
theorem nms_sorted (faces : List Rect) (thr : ℚ) :
    (non_max_suppression faces thr).Sorted areaGe := by
  unfold non_max_suppression
  exact List.Pairwise.sublist (nmsLoop_sublist thr _ _) (List.sorted_insertionSort areaGe faces)

/-! ## Detection-stage lemmas -/

theorem foldl_dedupStep_sublist : ∀ (raw acc : List Rect),
    List.Sublist (raw.foldl dedupStep acc) (acc ++ raw)
  | [], acc => by simp
  | r :: raw, acc => by
      have h1 := foldl_dedupStep_sublist raw (dedupStep acc r)
      have h2 : List.Sublist (dedupStep acc r ++ raw) (acc ++ r :: raw) := by
        unfold dedupStep
        by_cases hc : (sizeWindowOk r && !isDuplicate r acc) = true
        · rw [if_pos hc, List.append_assoc, List.singleton_append]
        · rw [if_neg hc]
          exact List.Sublist.append_left (List.sublist_cons_self r raw) acc
      rw [List.foldl_cons]
      exact h1.trans h2

/-- The survivor list of `detect_faces_multi_scale` keeps a subsequence of the
raw candidate order. -/
theorem detectFilteredFaces_sublist (raw : List Rect) :
    List.Sublist (detectFilteredFaces raw) raw := by
  simpa using foldl_dedupStep_sublist raw []

/-! ## Filtering-stage lemmas -/

/-- When no candidate makes the `w / h` division raise (no zero height), the
check loop completes and every kept candidate is an input candidate that
passed all four per-candidate checks. -/
theorem filterLoop_ok (img : Image) : ∀ (faces : List Rect),
    (∀ r ∈ faces, r.h ≠ 0) →
    ∃ kept, filterLoop img faces = Except.ok kept ∧
      ∀ r ∈ kept, r ∈ faces ∧ candidatePasses img r = true
  | [], _ => ⟨[], rfl, by simp⟩
  | r :: rest, hz => by
      obtain ⟨kt, hkt, hmem⟩ :=
        filterLoop_ok img rest fun s hs => hz s (List.mem_cons_of_mem r hs)
      refine ⟨if candidatePasses img r then r :: kt else kt, ?_, ?_⟩
      · simp only [filterLoop, if_neg (hz r (List.mem_cons_self r rest)), hkt]
      · intro s hs
        by_cases hp : candidatePasses img r = true
        · rw [if_pos hp] at hs
          rcases List.mem_cons.mp hs with h | h
          · subst h
            exact ⟨List.mem_cons_self s rest, hp⟩
          · exact ⟨List.mem_cons_of_mem r (hmem s h).1, (hmem s h).2⟩
        · rw [if_neg hp] at hs
          exact ⟨List.mem_cons_of_mem r (hmem s hs).1, (hmem s hs).2⟩

/-- A zero-height candidate anywhere in the list makes the check loop raise. -/
theorem filterLoop_error (img : Image) (faces : List Rect)
    (h : ∃ r ∈ faces, r.h = 0) : filterLoop img faces = Except.error () := by
  induction faces with
  | nil => simp at h
  | cons r rest ih =>
      by_cases hr : r.h = 0
      · simp only [filterLoop, if_pos hr]
      · obtain ⟨s, hs, hs0⟩ := h
        rcases List.mem_cons.mp hs with rfl | hmem
        · exact absurd hs0 hr
        · simp only [filterLoop, if_neg hr, ih ⟨s, hmem, hs0⟩]

/-- When the check loop completes, the output of `filter_false_positives` is
contained in its kept list. -/
theorem filter_false_positives_subset_kept (faces : List Rect) (img : Image)
    (kept : List Rect) (hk : filterLoop img faces = Except.ok kept) :
    ∀ r ∈ filter_false_positives faces img, r ∈ kept := by
  intro r hr
  unfold filter_false_positives at hr
  rw [hk] at hr
  have hr' : r ∈ (if 1 < kept.length then non_max_suppression kept (mkRat 3 10) else kept) := hr
  by_cases h1 : 1 < kept.length
  · rw [if_pos h1] at hr'
    exact mem_of_mem_nms hr'
  · rw [if_neg h1] at hr'
    exact hr'

/-! ## Orchestration-loop lemmas -/

/-- When the per-candidate loop completes, the predictions correspond
one-to-one to the candidates whose step succeeded, their `face_id`s are the
1-based candidate indices (hence strictly increasing and bounded by the
candidate count). -/
theorem predictLoop_ok_spec (step : Rect → StepOutcome) : ∀ (faces : List Rect) (i : Nat)
    (res : List FacePrediction), predictLoop step faces i = Except.ok res →
    res.length = (faces.filter fun r => isOk (step r)).length ∧
    (∀ p ∈ res, i + 1 ≤ p.face_id ∧ p.face_id ≤ i + faces.length) ∧
    res.Pairwise (fun p q => p.face_id < q.face_id)
  | [], i, res, h => by
      simp only [predictLoop, Except.ok.injEq] at h
      subst h
      simp
  | r :: rest, i, res, h => by
      simp only [predictLoop] at h
      cases hstep : step r with
      | skip =>
          rw [hstep] at h
          obtain ⟨hlen, hbnd, hpw⟩ := predictLoop_ok_spec step rest (i + 1) res h
          refine ⟨?_, ?_, hpw⟩
          · rw [List.filter_cons_of_neg (by simp [hstep, isOk])]
            exact hlen
          · intro p hp
            have := hbnd p hp
            simp only [List.length_cons]
            omega
      | ok e c =>
          rw [hstep] at h
          cases hrec : predictLoop step rest (i + 1) with
          | error m => rw [hrec] at h; cases h
          | ok tail =>
              rw [hrec] at h
              have h' : Except.ok ({ face_id := i + 1, box := r, emotion := e, confidence := c } :: tail) =
                  (Except.ok res : Except String (List FacePrediction)) := h
              rw [Except.ok.injEq] at h'
              subst h'
              obtain ⟨hlen, hbnd, hpw⟩ := predictLoop_ok_spec step rest (i + 1) tail hrec
              refine ⟨?_, ?_, ?_⟩
              · rw [List.filter_cons_of_pos (by simp [hstep, isOk])]
                simp [hlen]
              · intro p hp
                rcases List.mem_cons.mp hp with rfl | hp'
                · simp only [List.length_cons]
                  omega
                · have := hbnd p hp'
                  simp only [List.length_cons]
                  omega
              · refine List.Pairwise.cons ?_ hpw
                intro q hq
                have := (hbnd q hq).1
                show i + 1 < q.face_id
                omega
      | raise m => rw [hstep] at h; cases h

/-- If no candidate's step raises, the per-candidate loop completes. -/
theorem predictLoop_no_raise (step : Rect → StepOutcome) : ∀ (faces : List Rect) (i : Nat),
    (∀ r ∈ faces, isRaise (step r) = false) →
    ∃ res, predictLoop step faces i = Except.ok res
  | [], _, _ => ⟨[], rfl⟩
  | r :: rest, i, h => by
      obtain ⟨res, hres⟩ :=
        predictLoop_no_raise step rest (i + 1) fun s hs => h s (List.mem_cons_of_mem r hs)
      have hr := h r (List.mem_cons_self r rest)
      cases hstep : step r with
      | skip =>
          exact ⟨res, by simp only [predictLoop, hstep]; exact hres⟩
      | ok e c =>
          exact ⟨{ face_id := i + 1, box := r, emotion := e, confidence := c } :: res,
            by simp only [predictLoop, hstep, hres]⟩
      | raise m => rw [hstep] at hr; simp [isRaise] at hr

/-- If some candidate's step raises, the per-candidate loop raises. -/
theorem predictLoop_raise (step : Rect → StepOutcome) : ∀ (faces : List Rect) (i : Nat),
    (∃ r ∈ faces, isRaise (step r) = true) →
    ∃ m, predictLoop step faces i = Except.error m
  | [], _, h => by simp at h
  | r :: rest, i, h => by
      cases hstep : step r with
      | raise m => exact ⟨m, by simp only [predictLoop, hstep]⟩
      | skip =>
          obtain ⟨s, hs, hs1⟩ := h
          rcases List.mem_cons.mp hs with rfl | hmem
          · rw [hstep] at hs1; simp [isRaise] at hs1
          · obtain ⟨m, hm⟩ := predictLoop_raise step rest (i + 1) ⟨s, hmem, hs1⟩
            exact ⟨m, by simp only [predictLoop, hstep]; exact hm⟩
      | ok e c =>
          obtain ⟨s, hs, hs1⟩ := h
          rcases List.mem_cons.mp hs with rfl | hmem
          · rw [hstep] at hs1; simp [isRaise] at hs1
          · obtain ⟨m, hm⟩ := predictLoop_raise step rest (i + 1) ⟨s, hmem, hs1⟩
            exact ⟨m, by simp only [predictLoop, hstep, hm]⟩

/-- If every candidate's step succeeds, the predictions' `face_id`s are
exactly the consecutive indices `i+1, …, i+length`. -/
theorem predictLoop_all_ok (step : Rect → StepOutcome) : ∀ (faces : List Rect) (i : Nat),
    (∀ r ∈ faces, isOk (step r) = true) →
    ∃ res, predictLoop step faces i = Except.ok res ∧
      res.map (fun p => p.face_id) = List.range' (i + 1) faces.length
  | [], _, _ => ⟨[], rfl, by simp⟩
  | r :: rest, i, h => by
      obtain ⟨tail, htail, hmap⟩ :=
        predictLoop_all_ok step rest (i + 1) fun s hs => h s (List.mem_cons_of_mem r hs)
      have hr := h r (List.mem_cons_self r rest)
      cases hstep : step r with
      | skip => rw [hstep] at hr; simp [isOk] at hr
      | raise m => rw [hstep] at hr; simp [isOk] at hr
      | ok e c =>
          refine ⟨{ face_id := i + 1, box := r, emotion := e, confidence := c } :: tail,
            by simp only [predictLoop, hstep, htail], ?_⟩
          simp only [List.map_cons, hmap, List.length_cons, List.range'_succ]

/-- A step outcome modelling a successful prediction never models a raised
exception. -/
theorem isRaise_eq_false_of_isOk (o : StepOutcome) (h : isOk o = true) :
    isRaise o = false := by
  cases o <;> simp [isOk, isRaise] at h ⊢

/-! ## Claim theorems -/

/-- C1, counterexample: on an empty candidate list `predict_emotion` answers
with `success = false` (message `'No face detected'`), not `success = true`
as the claim states; `faces_detected = 0` and the empty prediction list do
hold. -/
theorem noFace_response_not_success :
    (predict_emotion [] (fun _ => StepOutcome.skip)).success = false ∧
    (predict_emotion [] (fun _ => StepOutcome.skip)).faces_detected = 0 ∧
    (predict_emotion [] (fun _ => StepOutcome.skip)).emotions = [] := by decide

/-- C1 (amended): whenever the detection stage yields no surviving candidate,
`predict_emotion` returns the response with `success = false`, the
`'No face detected'` message, `faces_detected = 0` and no predictions. -/
theorem predict_emotion_no_face_response (raw : List Rect) (step : Rect → StepOutcome)
    (h : detect_faces_multi_scale raw = []) :
    predict_emotion raw step =
      { success := false, message := Message.noFace, faces_detected := 0, emotions := [] } := by
  simp [predict_emotion, h]

/-- Witness for C1's amended theorem at the concrete empty candidate list. -/
theorem predict_emotion_no_face_response_witness :
    predict_emotion [] (fun _ => StepOutcome.ok 0 1) =
      { success := false, message := Message.noFace, faces_detected := 0, emotions := [] } :=
  predict_emotion_no_face_response [] (fun _ => StepOutcome.ok 0 1) (by decide)

/-- C2, counterexample: four well-separated candidates inside the size window
with strictly increasing areas all survive filtering, but the pipeline keeps
the *first* three and drops the largest-area survivor `(300, 0, 33, 33)`. -/
theorem detect_cap_not_largest_area :
    detectFilteredFaces
        [⟨0, 0, 30, 30⟩, ⟨100, 0, 31, 31⟩, ⟨200, 0, 32, 32⟩, ⟨300, 0, 33, 33⟩] =
      [⟨0, 0, 30, 30⟩, ⟨100, 0, 31, 31⟩, ⟨200, 0, 32, 32⟩, ⟨300, 0, 33, 33⟩] ∧
    detect_faces_multi_scale
        [⟨0, 0, 30, 30⟩, ⟨100, 0, 31, 31⟩, ⟨200, 0, 32, 32⟩, ⟨300, 0, 33, 33⟩] =
      [⟨0, 0, 30, 30⟩, ⟨100, 0, 31, 31⟩, ⟨200, 0, 32, 32⟩] ∧
    (⟨300, 0, 33, 33⟩ : Rect) ∉ detect_faces_multi_scale
        [⟨0, 0, 30, 30⟩, ⟨100, 0, 31, 31⟩, ⟨200, 0, 32, 32⟩, ⟨300, 0, 33, 33⟩] ∧
    (⟨0, 0, 30, 30⟩ : Rect).area < (⟨300, 0, 33, 33⟩ : Rect).area := by decide

/-- C2 (amended): the filtered candidate list holds at most 3 candidates and
is the initial segment (first three, in candidate order — not the three
largest) of the survivor list, which itself respects raw candidate order;
whenever a survivor is dropped the cap is full. -/
theorem detect_cap_first_survivors (raw : List Rect) :
    (detect_faces_multi_scale raw).length ≤ 3 ∧
    List.Sublist (detect_faces_multi_scale raw) raw ∧
    (∀ i, i < 3 → (detect_faces_multi_scale raw).get? i = (detectFilteredFaces raw).get? i) ∧
    (∀ r ∈ detectFilteredFaces raw, r ∉ detect_faces_multi_scale raw →
      (detect_faces_multi_scale raw).length = 3) := by
  refine ⟨?_, ?_, ?_, ?_⟩
  · unfold detect_faces_multi_scale
    rw [List.length_take]
    exact min_le_left _ _
  · exact (List.take_sublist _ _).trans (detectFilteredFaces_sublist raw)
  · intro i hi
    unfold detect_faces_multi_scale
    exact List.get?_take hi
  · intro r hmem hnot
    unfold detect_faces_multi_scale at *
    by_cases hlen : (detectFilteredFaces raw).length ≤ 3
    · rw [List.take_all_of_le hlen] at hnot
      exact absurd hmem hnot
    · rw [List.length_take]
      omega

/-- Witness for C2's amended theorem on the four-candidate example. -/
theorem detect_cap_first_survivors_witness :
    (detect_faces_multi_scale
        [⟨0, 0, 30, 30⟩, ⟨100, 0, 31, 31⟩, ⟨200, 0, 32, 32⟩, ⟨300, 0, 33, 33⟩]).get? 0 =
      (detectFilteredFaces
        [⟨0, 0, 30, 30⟩, ⟨100, 0, 31, 31⟩, ⟨200, 0, 32, 32⟩, ⟨300, 0, 33, 33⟩]).get? 0 ∧
    (detect_faces_multi_scale
        [⟨0, 0, 30, 30⟩, ⟨100, 0, 31, 31⟩, ⟨200, 0, 32, 32⟩, ⟨300, 0, 33, 33⟩]).length = 3 :=
  ⟨(detect_cap_first_survivors
      [⟨0, 0, 30, 30⟩, ⟨100, 0, 31, 31⟩, ⟨200, 0, 32, 32⟩, ⟨300, 0, 33, 33⟩]).2.2.1 0
      (by decide),
   (detect_cap_first_survivors
      [⟨0, 0, 30, 30⟩, ⟨100, 0, 31, 31⟩, ⟨200, 0, 32, 32⟩, ⟨300, 0, 33, 33⟩]).2.2.2
      ⟨300, 0, 33, 33⟩ (by decide) (by decide)⟩

/-- C3, counterexample: the prediction pipeline (`predict_emotion` over the
detection stage) never invokes `filter_false_positives`; a `300 × 50`
candidate (aspect ratio 6.0) passes the detection stage's own size window
and survives to the response. -/
theorem pipeline_keeps_wide_candidate :
    detect_faces_multi_scale [⟨0, 0, 300, 50⟩] = [⟨0, 0, 300, 50⟩] ∧
    (predict_emotion [⟨0, 0, 300, 50⟩] (fun _ => StepOutcome.ok 0 1)).success = true ∧
    (predict_emotion [⟨0, 0, 300, 50⟩] (fun _ => StepOutcome.ok 0 1)).emotions.map
        (fun p => p.box) = [⟨0, 0, 300, 50⟩] := by decide

/-- C3 (amended): `filter_false_positives` itself (which the prediction
pipeline never calls) always discards a `300 × 50` candidate, provided no
candidate in the list has height 0 (which would abort the filter through its
internal-exception path and return the input unfiltered). -/
theorem filter_false_positives_discards_wide (faces : List Rect) (img : Image)
    (hz : ∀ r ∈ faces, r.h ≠ 0) :
    ∀ r ∈ filter_false_positives faces img, ¬ (r.w = 300 ∧ r.h = 50) := by
  intro r hr hcontra
  obtain ⟨kept, hk, hmem⟩ := filterLoop_ok img faces hz
  have hrk := filter_false_positives_subset_kept faces img kept hk r hr
  have hpass := (hmem r hrk).2
  unfold candidatePasses at hpass
  simp only [Bool.and_eq_true] at hpass
  have hasp : aspectOk r = true := hpass.1.1.1
  unfold aspectOk at hasp
  rw [hcontra.1, hcontra.2] at hasp
  simp at hasp

/-- Witness for C3's amended theorem: a concrete square candidate that
survives `filter_false_positives` on a textured frame. -/
theorem filter_false_positives_discards_wide_witness :
    ¬ ((⟨0, 0, 30, 30⟩ : Rect).w = 300 ∧ (⟨0, 0, 30, 30⟩ : Rect).h = 50) :=
  filter_false_positives_discards_wide [⟨0, 0, 30, 30⟩] texturedTestImage
    (by decide) ⟨0, 0, 30, 30⟩ (by decide)

/-- C4, counterexample: the prediction pipeline's surviving candidate list is
computed by the detection stage, which never inspects pixel content: a
candidate whose region in the uniform frame is uniform (variance 0, nonempty)
survives and is classified. -/
theorem pipeline_keeps_uniform_candidate :
    variance (regionPixels uniformTestImage ⟨0, 0, 30, 30⟩) = 0 ∧
    (regionPixels uniformTestImage ⟨0, 0, 30, 30⟩).length ≠ 0 ∧
    detect_faces_multi_scale [⟨0, 0, 30, 30⟩] = [⟨0, 0, 30, 30⟩] ∧
    (predict_emotion [⟨0, 0, 30, 30⟩] (fun _ => StepOutcome.ok 0 1)).success = true :=
  ⟨variance_const _ 128 (regionPixels_const uniformTestImage ⟨0, 0, 30, 30⟩ 128 fun _ _ => rfl),
   by rw [regionPixels_length]; decide,
   by decide, by decide⟩

/-- C4 (amended): `filter_false_positives` itself (which the prediction
pipeline never calls) discards every candidate whose nonempty region has
variance below 100 — in particular every uniform region — provided no
candidate in the list has height 0 (the internal-exception path). -/
theorem filter_false_positives_discards_uniform (faces : List Rect) (img : Image)
    (hz : ∀ r ∈ faces, r.h ≠ 0) :
    ∀ r ∈ filter_false_positives faces img, (regionPixels img r).length ≠ 0 →
      ¬ variance (regionPixels img r) < 100 := by
  intro r hr hlen
  obtain ⟨kept, hk, hmem⟩ := filterLoop_ok img faces hz
  have hrk := filter_false_positives_subset_kept faces img kept hk r hr
  have hpass := (hmem r hrk).2
  unfold candidatePasses at hpass
  simp only [Bool.and_eq_true] at hpass
  exact (varianceOk_eq_ratio img r hlen).mp hpass.1.2

/-- Witness for C4's amended theorem: the surviving textured candidate indeed
has variance at least 100. -/
theorem filter_false_positives_discards_uniform_witness :
    ¬ variance (regionPixels texturedTestImage ⟨0, 0, 30, 30⟩) < 100 :=
  filter_false_positives_discards_uniform [⟨0, 0, 30, 30⟩] texturedTestImage
    (by decide) ⟨0, 0, 30, 30⟩ (by decide) (by decide)

/-- C5: in every successful response `faces_detected` is the surviving
candidate count; when no per-candidate step raises, the number of predictions
is the number of candidates whose step succeeded (preprocessing skips are
omitted without failing the request), and a nonempty candidate list yields
`success = true`. -/
theorem faces_detected_counts_survivors (raw : List Rect) (step : Rect → StepOutcome) :
    ((predict_emotion raw step).success = true →
      (predict_emotion raw step).faces_detected = (detect_faces_multi_scale raw).length) ∧
    ((∀ r ∈ detect_faces_multi_scale raw, isRaise (step r) = false) →
      (predict_emotion raw step).emotions.length =
        ((detect_faces_multi_scale raw).filter fun r => isOk (step r)).length) ∧
    ((∀ r ∈ detect_faces_multi_scale raw, isRaise (step r) = false) →
      detect_faces_multi_scale raw ≠ [] → (predict_emotion raw step).success = true) := by
  by_cases h0 : (detect_faces_multi_scale raw).length = 0
  · have hfe : detect_faces_multi_scale raw = [] := List.length_eq_zero.mp h0
    refine ⟨?_, ?_, ?_⟩
    · intro hsucc
      simp [predict_emotion, h0] at hsucc
    · intro _
      simp [predict_emotion, h0, hfe]
    · intro _ hne
      exact absurd hfe hne
  · simp only [predict_emotion, if_neg h0]
    cases hloop : predictLoop step (detect_faces_multi_scale raw) 0 with
    | ok res =>
        exact ⟨fun _ => rfl, fun _ => (predictLoop_ok_spec step _ 0 res hloop).1,
          fun _ _ => rfl⟩
    | error m =>
        refine ⟨?_, ?_, ?_⟩
        · intro hsucc
          simp at hsucc
        · intro hnr
          obtain ⟨res, hres⟩ := predictLoop_no_raise step _ 0 hnr
          rw [hloop] at hres
          cases hres
        · intro hnr _
          obtain ⟨res, hres⟩ := predictLoop_no_raise step _ 0 hnr
          rw [hloop] at hres
          cases hres

/-- Witness for C5 with two surviving candidates of which the second skips
(preprocessing failure): two faces detected, one prediction, success. -/
theorem faces_detected_counts_survivors_witness :
    (predict_emotion [⟨0, 0, 30, 30⟩, ⟨50, 50, 30, 30⟩]
        (fun r => if r.x = 0 then StepOutcome.ok 0 1 else StepOutcome.skip)).faces_detected = 2 ∧
    (predict_emotion [⟨0, 0, 30, 30⟩, ⟨50, 50, 30, 30⟩]
        (fun r => if r.x = 0 then StepOutcome.ok 0 1 else StepOutcome.skip)).emotions.length = 1 ∧
    (predict_emotion [⟨0, 0, 30, 30⟩, ⟨50, 50, 30, 30⟩]
        (fun r => if r.x = 0 then StepOutcome.ok 0 1 else StepOutcome.skip)).success = true := by
  have h := faces_detected_counts_survivors [⟨0, 0, 30, 30⟩, ⟨50, 50, 30, 30⟩]
    (fun r => if r.x = 0 then StepOutcome.ok 0 1 else StepOutcome.skip)
  have hsucc := h.2.2 (by decide) (by decide)
  exact ⟨(h.1 hsucc).trans (by decide), (h.2.1 (by decide)).trans (by decide), hsucc⟩

/-- C6, counterexample: with two surviving candidates where the first skips
and the second succeeds, the single prediction carries `face_id = 2`, so the
`face_id`s are `[2]`, not the dense `1..N = [1]`. -/
theorem face_ids_not_dense_on_skip :
    (predict_emotion [⟨0, 0, 30, 30⟩, ⟨50, 50, 30, 30⟩]
        (fun r => if r.x = 0 then StepOutcome.skip else StepOutcome.ok 0 1)).emotions.map
      (fun p => p.face_id) = [2] ∧
    (predict_emotion [⟨0, 0, 30, 30⟩, ⟨50, 50, 30, 30⟩]
        (fun r => if r.x = 0 then StepOutcome.skip else StepOutcome.ok 0 1)).emotions.map
      (fun p => p.face_id) ≠
      List.range' 1
        (predict_emotion [⟨0, 0, 30, 30⟩, ⟨50, 50, 30, 30⟩]
          (fun r => if r.x = 0 then StepOutcome.skip else StepOutcome.ok 0 1)).emotions.length := by
  decide

/-- C6 (amended): within one response the `face_id`s are strictly increasing
(hence unique) and lie in `1..faces_detected`; they are exactly the dense
sequence `1..N` when every surviving candidate yields a prediction, `N` then
being `faces_detected`. -/
theorem face_ids_increasing_bounded (raw : List Rect) (step : Rect → StepOutcome) :
    ((predict_emotion raw step).emotions.Pairwise fun p q => p.face_id < q.face_id) ∧
    (∀ p ∈ (predict_emotion raw step).emotions,
      1 ≤ p.face_id ∧ p.face_id ≤ (predict_emotion raw step).faces_detected) ∧
    ((∀ r ∈ detect_faces_multi_scale raw, isOk (step r) = true) →
      (predict_emotion raw step).emotions.map (fun p => p.face_id) =
        List.range' 1 (predict_emotion raw step).faces_detected) := by
  by_cases h0 : (detect_faces_multi_scale raw).length = 0
  · refine ⟨?_, ?_, ?_⟩ <;> simp [predict_emotion, h0]
  · simp only [predict_emotion, if_neg h0]
    cases hloop : predictLoop step (detect_faces_multi_scale raw) 0 with
    | ok res =>
        obtain ⟨hlen, hbnd, hpw⟩ := predictLoop_ok_spec step _ 0 res hloop
        refine ⟨hpw, ?_, ?_⟩
        · intro p hp
          have := hbnd p hp
          show 1 ≤ p.face_id ∧ p.face_id ≤ (detect_faces_multi_scale raw).length
          omega
        · intro hall
          obtain ⟨res2, hres2, hmap⟩ := predictLoop_all_ok step _ 0 hall
          rw [hloop] at hres2
          rw [Except.ok.injEq] at hres2
          subst hres2
          show res.map (fun p => p.face_id) =
            List.range' 1 (detect_faces_multi_scale raw).length
          exact hmap
    | error m =>
        refine ⟨by simp, by simp, ?_⟩
        intro hall
        obtain ⟨res, hres⟩ := predictLoop_no_raise step _ 0 fun r hr =>
          isRaise_eq_false_of_isOk (step r) (hall r hr)
        rw [hloop] at hres
        cases hres

/-- Witness for C6's amended theorem: two surviving candidates, both steps
succeed, `face_id`s are exactly `1, 2`. -/
theorem face_ids_increasing_bounded_witness :
    (predict_emotion [⟨0, 0, 30, 30⟩, ⟨50, 50, 30, 30⟩]
        (fun _ => StepOutcome.ok 0 1)).emotions.map (fun p => p.face_id) =
      List.range' 1 2 := by
  have h := face_ids_increasing_bounded [⟨0, 0, 30, 30⟩, ⟨50, 50, 30, 30⟩]
    (fun _ => StepOutcome.ok 0 1)
  exact (h.2.2 (by decide)).trans (by decide)

/-- C7: every two distinct rectangles in the NMS output overlap by at most
the threshold — their computed intersection-over-union ratio is at most
`thr`, for every input list and every threshold. -/
theorem nms_pairwise_iou_le (faces : List Rect) (thr : ℚ) (a b : Rect)
    (ha : a ∈ non_max_suppression faces thr) (hb : b ∈ non_max_suppression faces thr)
    (hab : a ≠ b) : overlapRatio a b ≤ thr := by
  have hsym : Symmetric fun x y : Rect => keepCond thr x y = true := by
    intro x y hxy
    rw [keepCond_comm]
    exact hxy
  have h := (nms_pairwise faces thr).forall hsym ha hb hab
  exact ((keepCond_eq_ratio thr a b).mp h).2

/-- Witness for C7 at the default threshold `0.3` with two disjoint faces. -/
theorem nms_pairwise_iou_le_witness :
    (⟨0, 0, 10, 10⟩ : Rect) ∈
        non_max_suppression [⟨0, 0, 10, 10⟩, ⟨100, 100, 10, 10⟩] (mkRat 3 10) ∧
    overlapRatio ⟨0, 0, 10, 10⟩ ⟨100, 100, 10, 10⟩ ≤ mkRat 3 10 :=
  ⟨by decide, nms_pairwise_iou_le [⟨0, 0, 10, 10⟩, ⟨100, 100, 10, 10⟩] (mkRat 3 10)
    ⟨0, 0, 10, 10⟩ ⟨100, 100, 10, 10⟩ (by decide) (by decide) (by decide)⟩

/-- C8: NMS is idempotent — applied to its own output (same threshold) it
returns that output unchanged, with no further suppression. -/
theorem nms_idempotent (faces : List Rect) (thr : ℚ) :
    non_max_suppression (non_max_suppression faces thr) thr =
      non_max_suppression faces thr := by
  have key : ∀ l : List Rect, l.Sorted areaGe →
      (l.Pairwise fun a b => keepCond thr a b = true) → non_max_suppression l thr = l := by
    intro l hs hp
    unfold non_max_suppression
    rw [hs.insertionSort_eq]
    exact nmsLoop_eq_self thr l.length l le_rfl hp
  exact key _ (nms_sorted faces thr) (nms_pairwise faces thr)

/-- C9: if any surviving candidate's step raises (e.g. the classifier is
unavailable), the whole request is converted into the structured error
response: `success = false`, an error message, `faces_detected = 0` and no
predictions. -/
theorem predict_emotion_exception_error_response (raw : List Rect) (step : Rect → StepOutcome)
    (h : ∃ r ∈ detect_faces_multi_scale raw, isRaise (step r) = true) :
    ∃ e, predict_emotion raw step =
      { success := false, message := Message.errorMsg e, faces_detected := 0,
        emotions := [] } := by
  obtain ⟨r, hr, hraise⟩ := h
  have h0 : (detect_faces_multi_scale raw).length ≠ 0 := by
    intro hlen
    rw [List.length_eq_zero.mp hlen] at hr
    exact absurd hr (List.not_mem_nil r)
  obtain ⟨m, hm⟩ := predictLoop_raise step (detect_faces_multi_scale raw) 0 ⟨r, hr, hraise⟩
  exact ⟨m, by simp only [predict_emotion, if_neg h0, hm]⟩

/-- Witness for C9: one surviving candidate whose step raises. -/
theorem predict_emotion_exception_error_response_witness :
    ∃ e, predict_emotion [⟨0, 0, 30, 30⟩] (fun _ => StepOutcome.raise "classifier unavailable") =
      { success := false, message := Message.errorMsg e, faces_detected := 0,
        emotions := [] } :=
  predict_emotion_exception_error_response [⟨0, 0, 30, 30⟩]
    (fun _ => StepOutcome.raise "classifier unavailable")
    ⟨⟨0, 0, 30, 30⟩, by decide, by decide⟩

/-- C10: an internal exception inside `filter_false_positives` (in the model,
the `w / h` division raising on a zero-height candidate after earlier
candidates were processed) makes the function return the *original unfiltered*
input list: every filter is bypassed for that call. -/
theorem filter_false_positives_error_returns_input (faces : List Rect) (img : Image)
    (h : ∃ r ∈ faces, r.h = 0) : filter_false_positives faces img = faces := by
  unfold filter_false_positives
  rw [filterLoop_error img faces h]

/-- Witness for C10: the zero-height second candidate aborts the filter and
the elongated `300 × 50` first candidate comes back unfiltered. -/
theorem filter_false_positives_error_returns_input_witness :
    filter_false_positives [⟨0, 0, 300, 50⟩, ⟨5, 5, 40, 0⟩] uniformTestImage =
      [⟨0, 0, 300, 50⟩, ⟨5, 5, 40, 0⟩] :=
  filter_false_positives_error_returns_input [⟨0, 0, 300, 50⟩, ⟨5, 5, 40, 0⟩]
    uniformTestImage ⟨⟨5, 5, 40, 0⟩, by decide, rfl⟩

end EmotionModel
